import Mathlib

/-!
Verification development for the Windows junk-file cleaner
(repository Kaede221/Windows-Clearner).

The repository ships the application entry point (`main.pyw`) together with
the design document of its scan/clean engine; the engine implementation
modules themselves (`src/scanner.py`, `src/cleaner.py`, `src/models.py`,
`src/file_system.py`, `src/config`) are not part of the sources available
here, so the engine is modelled from the specification: data types follow
§3 of the spec (and §1 of the design document), the safety policy follows
§4.2, the category scanners follow §4.3, the scan and clean orchestration
follow §4.4 and §4.5, and the configuration store follows §4.6.  Paths are
modelled as lists of components; the filesystem, privilege state and
busy/locked files are an explicit environment value.
-/

namespace WinCleaner

/-- Modelled from the spec: a filesystem path, as its list of components
(drive letter first).  A path `p` lies under a root `r` when `r` is a
componentwise prefix of `p`. -/
abbrev FsPath := List String

/-- Modelled from the spec §3: the closed tag set of junk categories. -/
inductive JunkCategory where
  | TEMP_FILES
  | WINDOWS_UPDATE_CACHE
  | RECYCLE_BIN
  | BROWSER_CACHE
  | THUMBNAIL_CACHE
  | CUSTOM
deriving DecidableEq, Repr

/-- Modelled from the spec §3: one enumerated junk file. -/
structure JunkFile where
  path : FsPath
  size : Nat
  category : JunkCategory
  can_delete : Bool
  error_message : Option String := none
deriving DecidableEq, Repr

/-- Modelled from the spec §3: the result of one scan run.  `categories`
is the mapping from category to its ordered file list, rendered as an
association list in scanner order. -/
structure ScanResult where
  categories : List (JunkCategory × List JunkFile)
  total_size : Nat
  total_count : Nat
  scan_duration : Nat
  errors : List String
  requires_admin : Bool
  inaccessible_categories : List JunkCategory
deriving DecidableEq, Repr

/-- Modelled from the spec §3: the result of one clean run. -/
structure CleanResult where
  success_count : Nat
  failed_count : Nat
  freed_space : Nat
  failed_files : List (FsPath × String)
  clean_duration : Nat
deriving DecidableEq, Repr

/-- Modelled from the spec §3: the scan configuration snapshot.  The
`enabled_categories` set is carried as a list. -/
structure ScanConfig where
  enabled_categories : List JunkCategory
  excluded_paths : List FsPath
  custom_patterns : List String
  max_file_age_days : Option Nat := none
deriving DecidableEq, Repr

/-- Modelled from the spec §3: the persisted application configuration. -/
structure AppConfig where
  scan_config : ScanConfig
  ui_theme : String := "light"
  language : String := "zh_CN"
  auto_check_updates : Bool := true
deriving DecidableEq, Repr

/-- Render a component path as a single backslash-separated string (used
only inside human-readable warning messages). -/
def pathString (p : FsPath) : String := String.intercalate "\\" p

/-- Does root `r` contain path `p` (componentwise prefix)? -/
def isUnder (p r : FsPath) : Bool := r.isPrefixOf p

/-- Modelled from the spec §4.2: the hard denylist of protected roots —
user document roots, installed-application roots and core OS
directories.  Paths under these are never eligible for deletion. -/
def denylistRoots : List FsPath :=
  [ ["C:", "Users", "user", "Documents"],
    ["C:", "Users", "user", "Desktop"],
    ["C:", "Users", "user", "Pictures"],
    ["C:", "Program Files"],
    ["C:", "Program Files (x86)"],
    ["C:", "Windows", "System32"] ]

/-- Is `p` under one of the denylist roots? -/
def underDenylist (p : FsPath) : Bool := denylistRoots.any (fun r => isUnder p r)

/-- Modelled from the spec §4.3 and the design document §1.5: the fixed
root locations owned by each category scanner.  The CUSTOM category has
no fixed roots (its selection is driven by user glob patterns alone, and
the configuration schema supplies no custom roots). -/
def categoryRoots : JunkCategory → List FsPath
  | .TEMP_FILES =>
      [ ["C:", "Windows", "Temp"],
        ["C:", "Users", "user", "AppData", "Local", "Temp"] ]
  | .WINDOWS_UPDATE_CACHE =>
      [ ["C:", "Windows", "SoftwareDistribution", "Download"] ]
  | .RECYCLE_BIN =>
      [ ["C:", "$Recycle.Bin"] ]
  | .BROWSER_CACHE =>
      [ ["C:", "Users", "user", "AppData", "Local", "Google", "Chrome",
          "User Data", "Default", "Cache"],
        ["C:", "Users", "user", "AppData", "Local", "Microsoft", "Edge",
          "User Data", "Default", "Cache"],
        ["C:", "Users", "user", "AppData", "Local", "Mozilla", "Firefox",
          "Profiles"] ]
  | .THUMBNAIL_CACHE =>
      [ ["C:", "Users", "user", "AppData", "Local", "Microsoft", "Windows",
          "Explorer"] ]
  | .CUSTOM => []

/-- Modelled from the spec §4.1: the privilege-gated roots (the update
cache store and the system temp store). -/
def elevatedRoots : List FsPath :=
  [ ["C:", "Windows", "Temp"],
    ["C:", "Windows", "SoftwareDistribution", "Download"] ]

/-- Modelled from the spec §4.1: does `p` require elevated privilege? -/
def requiresElevatedAccess (p : FsPath) : Bool :=
  elevatedRoots.any (fun r => isUnder p r)

/-- Simple glob matching over characters: `*` matches any run, `?` any
single character; used for the CUSTOM category's user patterns. -/
def globChars : List Char → List Char → Bool
  | [], [] => true
  | '*' :: ps, [] => globChars ps []
  | '*' :: ps, c :: cs => globChars ps (c :: cs) || globChars ('*' :: ps) cs
  | p :: ps, c :: cs => (p == c || p == '?') && globChars ps cs
  | _ :: _, [] => false
  | [], _ :: _ => false
termination_by ps cs => (ps.length, cs.length)

/-- Glob matching on strings. -/
def globMatch (pat s : String) : Bool := globChars pat.toList s.toList

/-- Modelled from the spec §4.2: the per-category allowlist.  A fixed
category matches when the path lies under one of the category's known
cache/temp roots; CUSTOM matches when the file name matches one of the
user-supplied glob patterns. -/
def allowlistMatch (cfg : ScanConfig) (c : JunkCategory) (p : FsPath) : Bool :=
  match c with
  | .CUSTOM => cfg.custom_patterns.any (fun pat => globMatch pat (p.getLastD ""))
  | _ => (categoryRoots c).any (fun r => isUnder p r)

/-- Modelled from the spec §4.2: `SafetyPolicy.isEligibleForDeletion`.
Two-layer check; the hard denylist always wins over the per-category
allowlist. -/
def isEligibleForDeletion (cfg : ScanConfig) (p : FsPath) (c : JunkCategory) : Bool :=
  !underDenylist p && allowlistMatch cfg c p

/-- Modelled from the spec §4.3: one file known to the (modelled)
filesystem: path, byte size and age in days since last modification. -/
structure FSEntry where
  path : FsPath
  size : Nat
  ageDays : Nat := 0
deriving DecidableEq, Repr

/-- Modelled from the spec §4.1/§4.5: the environment of one run — the
files on disk, whether elevated privilege is held, and which paths are
access-denied on probe, held open by another process, or denied for
deletion. -/
structure Env where
  fs : List FSEntry
  hasAdmin : Bool
  accessDenied : List FsPath := []
  inUse : List FsPath := []
  deleteDenied : List FsPath := []
deriving DecidableEq, Repr

/-- Modelled from the spec §4.1: non-destructive access probe. -/
def canAccess (env : Env) (p : FsPath) : Bool := !(decide (p ∈ env.accessDenied))

/-- Modelled from the spec §4.3: the optional age filter against
`max_file_age_days`, measured from last-modified time. -/
def agePred (cfg : ScanConfig) (e : FSEntry) : Bool :=
  match cfg.max_file_age_days with
  | none => true
  | some d => decide (d ≤ e.ageDays)

/-- Modelled from the spec §4.3 step 1: a root is skipped when an
excluded path equals it or is one of its ancestors. -/
def excludedRoot (cfg : ScanConfig) (root : FsPath) : Bool :=
  cfg.excluded_paths.any (fun e => isUnder root e)

/-- Modelled from the spec §4.3 step 3: traverse one root and build a
JunkFile for every accessible file passing the age filter, with
`can_delete` taken from the safety policy. -/
def scanRoot (env : Env) (cfg : ScanConfig) (c : JunkCategory) (root : FsPath) :
    List JunkFile :=
  (env.fs.filter
      (fun e => isUnder e.path root && canAccess env e.path && agePred cfg e)).map
    (fun e =>
      { path := e.path, size := e.size, category := c,
        can_delete := isEligibleForDeletion cfg e.path c,
        error_message := none })

/-- Modelled from the spec §4.3 steps 1–2: the roots of a category that
are actually traversed (not excluded, and not privilege-gated while
privilege is absent). -/
def activeRoots (env : Env) (cfg : ScanConfig) (c : JunkCategory) : List FsPath :=
  (categoryRoots c).filter
    (fun r => !excludedRoot cfg r && !(requiresElevatedAccess r && !env.hasAdmin))

/-- Modelled from the spec §4.3 step 2: the roots of a category that are
skipped for lack of elevated privilege. -/
def blockedRoots (env : Env) (cfg : ScanConfig) (c : JunkCategory) : List FsPath :=
  (categoryRoots c).filter
    (fun r => !excludedRoot cfg r && requiresElevatedAccess r && !env.hasAdmin)

/-- Modelled from the spec §4.3: all JunkFiles of one category scanner. -/
def scanCategoryFiles (env : Env) (cfg : ScanConfig) (c : JunkCategory) :
    List JunkFile :=
  (activeRoots env cfg c).flatMap (fun r => scanRoot env cfg c r)

/-- Modelled from the spec §4.3: the human-readable warnings of one
category scanner (privilege-gated roots skipped, inaccessible files). -/
def scanCategoryErrors (env : Env) (cfg : ScanConfig) (c : JunkCategory) :
    List String :=
  (blockedRoots env cfg c).map
      (fun r => "requires administrator: " ++ pathString r)
    ++ (activeRoots env cfg c).flatMap
      (fun r =>
        (env.fs.filter
            (fun e => isUnder e.path r && !canAccess env e.path)).map
          (fun e => "cannot access: " ++ pathString e.path))

/-- Modelled from the spec §4.3: did this category skip a root for lack
of elevated privilege? -/
def scanCategoryInaccessible (env : Env) (cfg : ScanConfig) (c : JunkCategory) :
    Bool :=
  !(blockedRoots env cfg c).isEmpty

/-- The fixed order in which the scan engine visits categories. -/
def allCategories : List JunkCategory :=
  [.TEMP_FILES, .WINDOWS_UPDATE_CACHE, .RECYCLE_BIN, .BROWSER_CACHE,
   .THUMBNAIL_CACHE, .CUSTOM]

/-- Modelled from the spec §4.4: the active scanner set, in engine
order. -/
def enabledList (cfg : ScanConfig) : List JunkCategory :=
  allCategories.filter (fun c => decide (c ∈ cfg.enabled_categories))

/-- Modelled from the spec §4.4/§4.5: the sequence of percentages passed
to `onProgress` when `n` work units exist and the first `k` of them are
processed before cancellation (or `k ≥ n` on natural completion):
after unit `i` the engine reports `(i+1)*100/n`. -/
def progressTrace (n k : Nat) : List Nat :=
  (List.range (min k n)).map (fun i => (i + 1) * 100 / n)

/-- A scan run: the ScanResult plus the observable progress/cancellation
behaviour. -/
structure ScanOutcome where
  result : ScanResult
  progress : List Nat
  cancelled : Bool
deriving DecidableEq, Repr

/-- Modelled from the spec §4.4: the scan engine.  Categories are
processed sequentially in engine order; `cancelAt = some k` models a
cancellation token observed as set before the `(k+1)`-th scanner;
statistics are recomputed from the merged category lists. -/
def scan (env : Env) (cfg : ScanConfig) (cancelAt : Option Nat) : ScanOutcome :=
  let act := enabledList cfg
  let n := act.length
  let k := min (cancelAt.getD n) n
  let processed := act.take k
  let cats := processed.map (fun c => (c, scanCategoryFiles env cfg c))
  let inacc := processed.filter (fun c => scanCategoryInaccessible env cfg c)
  { result :=
      { categories := cats
        total_size := (cats.map (fun p => (p.2.map (fun f => f.size)).sum)).sum
        total_count := (cats.map (fun p => p.2.length)).sum
        scan_duration := 0
        errors := processed.flatMap (fun c => scanCategoryErrors env cfg c)
        requires_admin := !inacc.isEmpty
        inaccessible_categories := inacc }
    progress := progressTrace n k
    cancelled := decide (k < n) }

/-- Outcome of one attempted deletion. -/
inductive DeleteOutcome where
  | removed (size : Nat)
  | failed (reason : String)
deriving DecidableEq, Repr

/-- Modelled from the spec §4.5 steps 1–3 and §9: processing of one file
given the current on-disk file list `fs`.  The safety policy is
re-checked first (defense in depth), then the busy probe, then removal is
attempted; a file that vanished between scan and clean is recorded as a
failure with reason "not found" (the spec leaves this choice open). -/
def cleanFileOutcome (cfg : ScanConfig) (env : Env) (fs : List FSEntry)
    (f : JunkFile) : DeleteOutcome :=
  if !(isEligibleForDeletion cfg f.path f.category) then .failed "no longer eligible"
  else if decide (f.path ∈ env.inUse) then .failed "in use"
  else if !(fs.any (fun e => decide (e.path = f.path))) then .failed "not found"
  else if decide (f.path ∈ env.deleteDenied) then .failed "permission denied"
  else .removed f.size

/-- Accumulator of the clean loop: current disk state plus the running
statistics. -/
structure CleanAcc where
  fs : List FSEntry
  success_count : Nat
  freed_space : Nat
  failed_files : List (FsPath × String)
deriving DecidableEq, Repr

/-- Modelled from the spec §4.5: one iteration of the clean loop.  On
success the path is removed from disk and the file's recorded size is
added to the freed space; on failure the (path, reason) pair is appended
to `failed_files`. -/
def cleanStep (cfg : ScanConfig) (env : Env) (acc : CleanAcc) (f : JunkFile) :
    CleanAcc :=
  match cleanFileOutcome cfg env acc.fs f with
  | .removed sz =>
      { acc with
        fs := acc.fs.filter (fun e => decide (e.path ≠ f.path))
        success_count := acc.success_count + 1
        freed_space := acc.freed_space + sz }
  | .failed r =>
      { acc with failed_files := acc.failed_files ++ [(f.path, r)] }

/-- A clean run: the CleanResult, the final disk state, and the
observable progress/cancellation behaviour. -/
structure CleanOutcome where
  result : CleanResult
  finalFs : List FSEntry
  progress : List Nat
  cancelled : Bool
deriving DecidableEq, Repr

/-- Modelled from the spec §4.5: the clean engine.  Exactly the files of
the caller-supplied selection are processed, in the order given;
`cancelAt = some k` models a cancellation token observed as set before
the `(k+1)`-th file, leaving the remaining files untouched and
uncounted. -/
def clean (cfg : ScanConfig) (env : Env) (files : List JunkFile)
    (cancelAt : Option Nat) : CleanOutcome :=
  let n := files.length
  let k := min (cancelAt.getD n) n
  let acc := (files.take k).foldl (cleanStep cfg env) ⟨env.fs, 0, 0, []⟩
  { result :=
      { success_count := acc.success_count
        failed_count := acc.failed_files.length
        freed_space := acc.freed_space
        failed_files := acc.failed_files
        clean_duration := 0 }
    finalFs := acc.fs
    progress := progressTrace n k
    cancelled := decide (k < n) }

/-- A structured key/value storage value, modelling the JSON persisted
by the configuration store. -/
inductive JVal where
  | jnull
  | jbool (b : Bool)
  | jnum (n : Nat)
  | jstr (s : String)
  | jarr (xs : List JVal)
  | jobj (fields : List (String × JVal))

/-- The persisted name of each category (the `config.json` schema of the
design document). -/
def catName : JunkCategory → String
  | .TEMP_FILES => "TEMP_FILES"
  | .WINDOWS_UPDATE_CACHE => "WINDOWS_UPDATE_CACHE"
  | .RECYCLE_BIN => "RECYCLE_BIN"
  | .BROWSER_CACHE => "BROWSER_CACHE"
  | .THUMBNAIL_CACHE => "THUMBNAIL_CACHE"
  | .CUSTOM => "CUSTOM"

/-- Parse a persisted category name. -/
def catFromName (s : String) : Option JunkCategory :=
  if s = "TEMP_FILES" then some .TEMP_FILES
  else if s = "WINDOWS_UPDATE_CACHE" then some .WINDOWS_UPDATE_CACHE
  else if s = "RECYCLE_BIN" then some .RECYCLE_BIN
  else if s = "BROWSER_CACHE" then some .BROWSER_CACHE
  else if s = "THUMBNAIL_CACHE" then some .THUMBNAIL_CACHE
  else if s = "CUSTOM" then some .CUSTOM
  else none

/-- Look up a field of a stored object. -/
def getField (fields : List (String × JVal)) (name : String) : Option JVal :=
  (fields.find? (fun p => decide (p.1 = name))).map (fun p => p.2)

/-- Encode one path as an array of component strings. -/
def encodePath (p : FsPath) : JVal := .jarr (p.map .jstr)

/-- Decode one stored string. -/
def decodeStr : JVal → Option String
  | .jstr s => some s
  | _ => none

/-- Decode every element of a stored array, failing when any element
fails. -/
def decodeList {α : Type} (g : JVal → Option α) : List JVal → Option (List α)
  | [] => some []
  | v :: vs =>
      match g v, decodeList g vs with
      | some a, some rest => some (a :: rest)
      | _, _ => none

/-- Decode one stored path. -/
def decodePath : JVal → Option FsPath
  | .jarr xs => decodeList decodeStr xs
  | _ => none

/-- Decode one stored category tag. -/
def decodeCat : JVal → Option JunkCategory
  | .jstr s => catFromName s
  | _ => none

/-- Modelled from the spec §4.6 and the `config.json` schema: encode a
ScanConfig for storage. -/
def encodeScanConfig (sc : ScanConfig) : JVal :=
  .jobj
    [ ("enabled_categories", .jarr (sc.enabled_categories.map (fun c => .jstr (catName c)))),
      ("excluded_paths", .jarr (sc.excluded_paths.map encodePath)),
      ("custom_patterns", .jarr (sc.custom_patterns.map .jstr)),
      ("max_file_age_days",
        match sc.max_file_age_days with
        | none => .jnull
        | some d => .jnum d) ]

/-- Modelled from the spec §4.6: decode a stored ScanConfig; `none` on
any malformed shape. -/
def decodeScanConfig (v : JVal) : Option ScanConfig :=
  match v with
  | .jobj fields => do
      let ecv ← getField fields "enabled_categories"
      let ec ← match ecv with
        | .jarr xs => decodeList decodeCat xs
        | _ => none
      let epv ← getField fields "excluded_paths"
      let ep ← match epv with
        | .jarr xs => decodeList decodePath xs
        | _ => none
      let cpv ← getField fields "custom_patterns"
      let cp ← match cpv with
        | .jarr xs => decodeList decodeStr xs
        | _ => none
      let mav ← getField fields "max_file_age_days"
      let ma ← match mav with
        | .jnull => some none
        | .jnum d => some (some d)
        | _ => none
      pure { enabled_categories := ec, excluded_paths := ep,
             custom_patterns := cp, max_file_age_days := ma }
  | _ => none

/-- Modelled from the spec §4.6: encode the whole AppConfig. -/
def encodeAppConfig (cfg : AppConfig) : JVal :=
  .jobj
    [ ("scan_config", encodeScanConfig cfg.scan_config),
      ("ui_theme", .jstr cfg.ui_theme),
      ("language", .jstr cfg.language),
      ("auto_check_updates", .jbool cfg.auto_check_updates) ]

/-- Modelled from the spec §4.6: decode a stored AppConfig; `none` on
any malformed shape. -/
def decodeAppConfig (v : JVal) : Option AppConfig :=
  match v with
  | .jobj fields => do
      let scv ← getField fields "scan_config"
      let sc ← decodeScanConfig scv
      let utv ← getField fields "ui_theme"
      let ut ← decodeStr utv
      let lv ← getField fields "language"
      let lang ← decodeStr lv
      let auv ← getField fields "auto_check_updates"
      let au ← match auv with
        | .jbool b => some b
        | _ => none
      pure { scan_config := sc, ui_theme := ut, language := lang,
             auto_check_updates := au }
  | _ => none

/-- Modelled from the spec §4.6: the fixed default configuration used
when the persisted state is missing or malformed. -/
def defaultConfig : AppConfig :=
  { scan_config :=
      { enabled_categories :=
          [.TEMP_FILES, .WINDOWS_UPDATE_CACHE, .RECYCLE_BIN, .BROWSER_CACHE,
           .THUMBNAIL_CACHE]
        excluded_paths := []
        custom_patterns := []
        max_file_age_days := none } }

/-- Modelled from the spec §4.6: `save` serializes the configuration to
the storage value. -/
def saveConfig (cfg : AppConfig) : JVal := encodeAppConfig cfg

/-- Modelled from the spec §4.6: `load` parses the stored value, falling
back to the fixed default configuration when the store is missing
(`none`) or malformed, never raising. -/
def loadConfig (stored : Option JVal) : AppConfig :=
  match stored with
  | none => defaultConfig
  | some v => (decodeAppConfig v).getD defaultConfig

/-- Outcome of `request_admin` in `src/main.pyw`: the process either
exits (the `sys.exit(0)` branch) or the function returns a boolean. -/
inductive LaunchResult where
  | exited (code : Nat)
  | returned (value : Bool)
deriving DecidableEq, Repr

/-- Shallow embedding of `request_admin` from `src/main.pyw` (lines
25–56).  Its input is the observed behaviour of the
`ShellExecuteW("runas", ...)` call: `Except.ok ret` for a numeric return
value, `Except.error e` when the attempt raised.  When `ret > 32` the
elevated relaunch was spawned and the current process exits with code 0
(`sys.exit(0)` raises `SystemExit`, which the `except Exception` clause
does not catch); otherwise, and on any exception, the function logs and
returns `False`. -/
def request_admin (shellExecuteResult : Except String Int) : LaunchResult :=
  match shellExecuteResult with
  | .ok ret => if ret > 32 then .exited 0 else .returned false
  | .error _ => .returned false

/-- Observable startup behaviour of `main` in `src/main.pyw`. -/
inductive StartupOutcome where
  | exitedForElevatedRelaunch (code : Nat)
  | runsApp (elevated : Bool)
deriving DecidableEq, Repr

/-- Shallow embedding of the privilege-handling prologue of `main` in
`src/main.pyw` (lines 59–72): when not elevated it calls
`request_admin`; if that exits, the process ends with its exit code,
otherwise the application continues running at the current privilege
level. -/
def mainStartup (isAdmin : Bool) (shellExecuteResult : Except String Int) :
    StartupOutcome :=
  if isAdmin then .runsApp true
  else
    match request_admin shellExecuteResult with
    | .exited c => .exitedForElevatedRelaunch c
    | .returned _ => .runsApp false

/-! Helper lemmas about path containment. -/

theorem isUnder_iff {p r : FsPath} : isUnder p r = true ↔ r <+: p :=
  List.isPrefixOf_iff_prefix

theorem under_comparable {p r₁ r₂ : FsPath} (h₁ : r₁ <+: p) (h₂ : r₂ <+: p) :
    r₁ <+: r₂ ∨ r₂ <+: r₁ :=
  List.prefix_or_prefix_of_prefix h₁ h₂

theorem underDenylist_iff {p : FsPath} :
    underDenylist p = true ↔ ∃ d ∈ denylistRoots, d <+: p := by
  simp [underDenylist, List.any_eq_true, isUnder_iff]

/-- No scanner root and denylist root contain one another (concrete root
tables). -/
theorem catRoots_denylist_separated (c : JunkCategory) :
    ∀ r ∈ categoryRoots c, ∀ d ∈ denylistRoots, ¬ d <+: r ∧ ¬ r <+: d := by
  cases c <;> decide

/-- Within one category, distinct roots do not contain one another
(concrete root tables). -/
theorem catRoots_pairwise_separated (c : JunkCategory) :
    (categoryRoots c).Pairwise (fun r₁ r₂ => ¬ r₁ <+: r₂ ∧ ¬ r₂ <+: r₁) := by
  cases c <;> decide

/-- Across two distinct categories, no root contains a root of the other
(concrete root tables). -/
theorem catRoots_cross_separated (c₁ c₂ : JunkCategory) (h : c₁ ≠ c₂) :
    ∀ r₁ ∈ categoryRoots c₁, ∀ r₂ ∈ categoryRoots c₂,
      ¬ r₁ <+: r₂ ∧ ¬ r₂ <+: r₁ := by
  cases c₁ <;> cases c₂ <;> first
    | exact absurd rfl h
    | decide

theorem mem_scanRoot {env : Env} {cfg : ScanConfig} {c : JunkCategory}
    {root : FsPath} {jf : JunkFile} (h : jf ∈ scanRoot env cfg c root) :
    root <+: jf.path ∧ ∃ e ∈ env.fs, jf.path = e.path := by
  simp only [scanRoot, List.mem_map, List.mem_filter] at h
  obtain ⟨e, ⟨he, hcond⟩, rfl⟩ := h
  simp only [Bool.and_eq_true] at hcond
  exact ⟨isUnder_iff.mp hcond.1.1, e, he, rfl⟩

theorem mem_scanCategoryFiles {env : Env} {cfg : ScanConfig} {c : JunkCategory}
    {jf : JunkFile} (h : jf ∈ scanCategoryFiles env cfg c) :
    ∃ r ∈ categoryRoots c, r <+: jf.path := by
  simp only [scanCategoryFiles, List.mem_flatMap] at h
  obtain ⟨r, hr, hjf⟩ := h
  exact ⟨r, (List.mem_filter.mp hr).1, (mem_scanRoot hjf).1⟩

theorem categories_of_scan {env : Env} {cfg : ScanConfig} {cancelAt : Option Nat}
    {c : JunkCategory} {fl : List JunkFile}
    (h : (c, fl) ∈ (scan env cfg cancelAt).result.categories) :
    fl = scanCategoryFiles env cfg c := by
  simp only [scan, List.mem_map] at h
  obtain ⟨c', _, heq⟩ := h
  cases heq
  rfl

/-- C1: no JunkFile in any category list of any ScanResult has a path
under the denylist roots, and in `isEligibleForDeletion` the denylist
always wins over the per-category allowlist: a denylisted path is never
eligible regardless of category. -/
theorem scan_safety_containment :
    (∀ (env : Env) (cfg : ScanConfig) (cancelAt : Option Nat)
        (c : JunkCategory) (fl : List JunkFile),
        (c, fl) ∈ (scan env cfg cancelAt).result.categories →
        ∀ jf ∈ fl, underDenylist jf.path = false)
    ∧ ∀ (cfg : ScanConfig) (p : FsPath) (c : JunkCategory),
        underDenylist p = true → isEligibleForDeletion cfg p c = false := by
  constructor
  · intro env cfg cancelAt c fl hmem jf hjf
    have hfl := categories_of_scan hmem
    subst hfl
    rcases mem_scanCategoryFiles hjf with ⟨r, hr, hrp⟩
    refine Bool.eq_false_iff.mpr ?_
    intro htrue
    rcases underDenylist_iff.mp htrue with ⟨d, hd, hdp⟩
    rcases under_comparable hdp hrp with hcase | hcase
    · exact (catRoots_denylist_separated c r hr d hd).1 hcase
    · exact (catRoots_denylist_separated c r hr d hd).2 hcase
  · intro cfg p c h
    simp [isEligibleForDeletion, h]

/-- Witness for C1 at a concrete scan (one temp file, elevated run) and
a concrete denylisted path. -/
theorem scan_safety_containment_witness :
    underDenylist ["C:", "Windows", "Temp", "a.tmp"] = false
    ∧ isEligibleForDeletion ⟨[], [], [], none⟩
        ["C:", "Users", "user", "Documents", "x.doc"]
        JunkCategory.TEMP_FILES = false := by
  constructor
  · exact scan_safety_containment.1
      ⟨[⟨["C:", "Windows", "Temp", "a.tmp"], 10, 0⟩], true, [], [], []⟩
      ⟨[.TEMP_FILES], [], [], none⟩ none .TEMP_FILES
      [⟨["C:", "Windows", "Temp", "a.tmp"], 10, .TEMP_FILES, true, none⟩]
      (by decide)
      ⟨["C:", "Windows", "Temp", "a.tmp"], 10, .TEMP_FILES, true, none⟩
      (by decide)
  · exact scan_safety_containment.2 ⟨[], [], [], none⟩
      ["C:", "Users", "user", "Documents", "x.doc"] .TEMP_FILES (by decide)

/-- C3: in every ScanResult, `total_count` is the sum of the category
list lengths and `total_size` the sum of all file sizes over all
categories. -/
theorem scanResult_statistics_integrity :
    ∀ (env : Env) (cfg : ScanConfig) (cancelAt : Option Nat),
      (scan env cfg cancelAt).result.total_count
          = (((scan env cfg cancelAt).result.categories).map
              (fun pr => pr.2.length)).sum
      ∧ (scan env cfg cancelAt).result.total_size
          = (((scan env cfg cancelAt).result.categories).map
              (fun pr => (pr.2.map (fun f => f.size)).sum)).sum := by
  intro env cfg cancelAt
  exact ⟨rfl, rfl⟩

theorem scanRoot_paths (env : Env) (cfg : ScanConfig) (c : JunkCategory)
    (root : FsPath) :
    (scanRoot env cfg c root).map (fun f => f.path)
      = (env.fs.filter
          (fun e => isUnder e.path root && canAccess env e.path
             && agePred cfg e)).map (fun e => e.path) := by
  simp [scanRoot, List.map_map, Function.comp]

theorem nodup_scanRoot_paths {env : Env} (cfg : ScanConfig) (c : JunkCategory)
    (root : FsPath) (h : (env.fs.map (fun e => e.path)).Nodup) :
    ((scanRoot env cfg c root).map (fun f => f.path)).Nodup := by
  rw [scanRoot_paths]
  exact List.Nodup.sublist (List.Sublist.map _ (List.filter_sublist _)) h

theorem mem_scanRoot_paths {env : Env} {cfg : ScanConfig} {c : JunkCategory}
    {root p : FsPath} (h : p ∈ (scanRoot env cfg c root).map (fun f => f.path)) :
    root <+: p := by
  simp only [List.mem_map] at h
  obtain ⟨jf, hjf, rfl⟩ := h
  exact (mem_scanRoot hjf).1

theorem mem_scanCategoryFiles_paths {env : Env} {cfg : ScanConfig}
    {c : JunkCategory} {p : FsPath}
    (h : p ∈ (scanCategoryFiles env cfg c).map (fun f => f.path)) :
    ∃ r ∈ categoryRoots c, r <+: p := by
  simp only [List.mem_map] at h
  obtain ⟨jf, hjf, rfl⟩ := h
  exact mem_scanCategoryFiles hjf

theorem nodup_scanCategoryFiles_paths (env : Env) (cfg : ScanConfig)
    (c : JunkCategory) (h : (env.fs.map (fun e => e.path)).Nodup) :
    ((scanCategoryFiles env cfg c).map (fun f => f.path)).Nodup := by
  rw [scanCategoryFiles, List.map_flatMap, List.nodup_flatMap]
  constructor
  · intro r _
    exact nodup_scanRoot_paths cfg c r h
  · have hpw : (activeRoots env cfg c).Pairwise
        (fun r₁ r₂ => ¬ r₁ <+: r₂ ∧ ¬ r₂ <+: r₁) :=
      List.Pairwise.sublist (List.filter_sublist _)
        (catRoots_pairwise_separated c)
    refine hpw.imp ?_
    intro r₁ r₂ hsep p hp₁ hp₂
    rcases under_comparable (mem_scanRoot_paths hp₁) (mem_scanRoot_paths hp₂) with
      hc | hc
    · exact hsep.1 hc
    · exact hsep.2 hc

theorem nodup_allCategories : allCategories.Nodup := by decide

/-- C4: in every ScanResult (over a filesystem without duplicate paths)
every file path appears in exactly one category list: the concatenation
of all per-category path lists has no duplicate, within or across
categories. -/
theorem scanResult_category_partition :
    ∀ (env : Env) (cfg : ScanConfig) (cancelAt : Option Nat),
      (env.fs.map (fun e => e.path)).Nodup →
      (((scan env cfg cancelAt).result.categories).flatMap
          (fun pr => pr.2.map (fun f => f.path))).Nodup := by
  intro env cfg cancelAt h
  show ((((enabledList cfg).take _).map
      (fun c => (c, scanCategoryFiles env cfg c))).flatMap
        (fun pr => pr.2.map (fun f => f.path))).Nodup
  rw [List.flatMap_map, List.nodup_flatMap]
  constructor
  · intro c _
    exact nodup_scanCategoryFiles_paths env cfg c h
  · have hnd : (((enabledList cfg).take
        (min ((cancelAt.getD (enabledList cfg).length)) (enabledList cfg).length))).Nodup :=
      List.Nodup.sublist (List.take_sublist _ _)
        ((nodup_allCategories).filter _)
    refine hnd.imp ?_
    intro c₁ c₂ hne p hp₁ hp₂
    rcases mem_scanCategoryFiles_paths hp₁ with ⟨r₁, hr₁, hrp₁⟩
    rcases mem_scanCategoryFiles_paths hp₂ with ⟨r₂, hr₂, hrp₂⟩
    rcases under_comparable hrp₁ hrp₂ with hc | hc
    · exact (catRoots_cross_separated c₁ c₂ hne r₁ hr₁ r₂ hr₂).1 hc
    · exact (catRoots_cross_separated c₁ c₂ hne r₁ hr₁ r₂ hr₂).2 hc

/-- Witness for C4 at a concrete two-file, two-category scan. -/
theorem scanResult_category_partition_witness :
    (((scan
        ⟨[⟨["C:", "Windows", "Temp", "a.tmp"], 10, 0⟩,
          ⟨["C:", "Windows", "SoftwareDistribution", "Download", "u.cab"], 20, 0⟩],
          true, [], [], []⟩
        ⟨[.TEMP_FILES, .WINDOWS_UPDATE_CACHE], [], [], none⟩
        none).result.categories).flatMap
        (fun pr => pr.2.map (fun f => f.path))).Nodup :=
  scanResult_category_partition
    ⟨[⟨["C:", "Windows", "Temp", "a.tmp"], 10, 0⟩,
      ⟨["C:", "Windows", "SoftwareDistribution", "Download", "u.cab"], 20, 0⟩],
      true, [], [], []⟩
    ⟨[.TEMP_FILES, .WINDOWS_UPDATE_CACHE], [], [], none⟩
    none (by decide)

/-! Helper lemmas about the clean loop. -/

theorem clean_fold_counts (cfg : ScanConfig) (env : Env) :
    ∀ (l : List JunkFile) (acc : CleanAcc),
      (l.foldl (cleanStep cfg env) acc).success_count
          + (l.foldl (cleanStep cfg env) acc).failed_files.length
        = acc.success_count + acc.failed_files.length + l.length := by
  intro l
  induction l with
  | nil => intro acc; simp
  | cons f t ih =>
      intro acc
      rw [List.foldl_cons, ih]
      cases h : cleanFileOutcome cfg env acc.fs f <;>
        simp [cleanStep, h] <;> omega

theorem clean_fold_frame (cfg : ScanConfig) (env : Env) :
    ∀ (l : List JunkFile) (acc : CleanAcc) (e : FSEntry),
      e ∈ acc.fs → (∀ f ∈ l, f.path ≠ e.path) →
      e ∈ (l.foldl (cleanStep cfg env) acc).fs := by
  intro l
  induction l with
  | nil => intro acc e he _; simpa using he
  | cons f t ih =>
      intro acc e he hl
      rw [List.foldl_cons]
      refine ih _ e ?_ (fun g hg => hl g (List.mem_cons_of_mem f hg))
      cases h : cleanFileOutcome cfg env acc.fs f with
      | removed sz =>
          simp [cleanStep, h]
          exact ⟨he, hl f (List.mem_cons_self f t) ∘ Eq.symm⟩
      | failed r =>
          simpa [cleanStep, h] using he

theorem clean_fold_failed_mono (cfg : ScanConfig) (env : Env) :
    ∀ (l : List JunkFile) (acc : CleanAcc) (x : FsPath × String),
      x ∈ acc.failed_files → x ∈ (l.foldl (cleanStep cfg env) acc).failed_files := by
  intro l
  induction l with
  | nil => intro acc x hx; simpa using hx
  | cons f t ih =>
      intro acc x hx
      rw [List.foldl_cons]
      refine ih _ x ?_
      cases h : cleanFileOutcome cfg env acc.fs f with
      | removed sz => simpa [cleanStep, h] using hx
      | failed r =>
          simp [cleanStep, h]
          left
          exact hx

theorem clean_fold_failed_mem (cfg : ScanConfig) (env : Env) {f : JunkFile}
    {r : String} (hout : ∀ fs', cleanFileOutcome cfg env fs' f = .failed r) :
    ∀ (l : List JunkFile) (acc : CleanAcc), f ∈ l →
      (f.path, r) ∈ (l.foldl (cleanStep cfg env) acc).failed_files := by
  intro l
  induction l with
  | nil => intro acc hmem; simp at hmem
  | cons g t ih =>
      intro acc hmem
      rw [List.foldl_cons]
      rcases List.mem_cons.mp hmem with rfl | hmem'
      · refine clean_fold_failed_mono cfg env t _ _ ?_
        simp [cleanStep, hout acc.fs]
      · exact ih _ hmem'

theorem clean_fold_preserves (cfg : ScanConfig) (env : Env) :
    ∀ (l : List JunkFile) (acc : CleanAcc) (e : FSEntry),
      e ∈ acc.fs →
      (∀ g ∈ l, g.path = e.path →
        ∀ fs' sz, cleanFileOutcome cfg env fs' g ≠ .removed sz) →
      e ∈ (l.foldl (cleanStep cfg env) acc).fs := by
  intro l
  induction l with
  | nil => intro acc e he _; simpa using he
  | cons g t ih =>
      intro acc e he hl
      rw [List.foldl_cons]
      refine ih _ e ?_ (fun g' hg' => hl g' (List.mem_cons_of_mem g hg'))
      cases h : cleanFileOutcome cfg env acc.fs g with
      | removed sz =>
          by_cases hpe : g.path = e.path
          · exact absurd h (hl g (List.mem_cons_self g t) hpe acc.fs sz)
          · simp [cleanStep, h]
            exact ⟨he, fun hc => hpe hc.symm⟩
      | failed r => simp [cleanStep, h]; exact he

/-- C5: a completed (non-cancelled) clean satisfies
`success_count + failed_count = number of files submitted`. -/
theorem cleanResult_counts_complete :
    ∀ (cfg : ScanConfig) (env : Env) (files : List JunkFile),
      (clean cfg env files none).result.success_count
          + (clean cfg env files none).result.failed_count
        = files.length := by
  intro cfg env files
  show ((files.take (min files.length files.length)).foldl
        (cleanStep cfg env) ⟨env.fs, 0, 0, []⟩).success_count
      + ((files.take (min files.length files.length)).foldl
        (cleanStep cfg env) ⟨env.fs, 0, 0, []⟩).failed_files.length
      = files.length
  rw [min_self, List.take_length]
  simpa using clean_fold_counts cfg env files ⟨env.fs, 0, 0, []⟩

/-- C2: `clean` only ever removes paths of the caller-supplied selection:
every on-disk entry whose path is outside the selection is still on disk
afterwards, for any cancellation point. -/
theorem clean_selection_fidelity :
    ∀ (cfg : ScanConfig) (env : Env) (files : List JunkFile)
      (cancelAt : Option Nat) (e : FSEntry),
      e ∈ env.fs →
      e.path ∉ files.map (fun f => f.path) →
      e ∈ (clean cfg env files cancelAt).finalFs := by
  intro cfg env files cancelAt e he hout
  refine clean_fold_frame cfg env _ _ e he ?_
  intro f hf
  intro hc
  exact hout (List.mem_map.mpr ⟨f, List.mem_of_mem_take hf, hc⟩)

/-- Witness for C2: a file outside the selection survives a concrete
clean run. -/
theorem clean_selection_fidelity_witness :
    (⟨["C:", "Users", "user", "Documents", "keep.txt"], 30, 0⟩ : FSEntry) ∈
      (clean ⟨[.TEMP_FILES], [], [], none⟩
        ⟨[⟨["C:", "Windows", "Temp", "a.tmp"], 10, 0⟩,
          ⟨["C:", "Users", "user", "Documents", "keep.txt"], 30, 0⟩],
          true, [], [], []⟩
        [⟨["C:", "Windows", "Temp", "a.tmp"], 10, .TEMP_FILES, true, none⟩]
        none).finalFs :=
  clean_selection_fidelity ⟨[.TEMP_FILES], [], [], none⟩
    ⟨[⟨["C:", "Windows", "Temp", "a.tmp"], 10, 0⟩,
      ⟨["C:", "Users", "user", "Documents", "keep.txt"], 30, 0⟩],
      true, [], [], []⟩
    [⟨["C:", "Windows", "Temp", "a.tmp"], 10, .TEMP_FILES, true, none⟩]
    none
    ⟨["C:", "Users", "user", "Documents", "keep.txt"], 30, 0⟩
    (by decide) (by decide)

/-- C6: the clean engine re-checks the safety policy per file; a file
whose path-and-category is no longer eligible (whatever its scan-time
`can_delete` flag says) is not removed from disk and is recorded in
`failed_files` with reason "no longer eligible". -/
theorem clean_recheck_eligibility :
    ∀ (cfg : ScanConfig) (env : Env) (files : List JunkFile) (f : JunkFile),
      f ∈ files →
      isEligibleForDeletion cfg f.path f.category = false →
      (files.map (fun g => g.path)).Nodup →
      (f.path, "no longer eligible") ∈ (clean cfg env files none).result.failed_files
        ∧ ∀ e ∈ env.fs, e.path = f.path → e ∈ (clean cfg env files none).finalFs := by
  intro cfg env files f hmem hinel hnd
  have hout : ∀ fs', cleanFileOutcome cfg env fs' f = .failed "no longer eligible" := by
    intro fs'
    simp [cleanFileOutcome, hinel]
  simp only [clean, Option.getD_none, min_self, List.take_length]
  constructor
  · exact clean_fold_failed_mem cfg env hout files _ hmem
  · intro e he hep
    refine clean_fold_preserves cfg env files _ e he ?_
    intro g hg hgp fs' sz hc
    have hgf : g = f :=
      List.inj_on_of_nodup_map hnd hg hmem (hgp.trans hep)
    rw [hgf, hout fs'] at hc
    exact DeleteOutcome.noConfusion hc

/-- Witness for C6: a selected file whose path drifted under the
denylist is recorded as "no longer eligible" and its on-disk entry
survives a concrete clean run. -/
theorem clean_recheck_eligibility_witness :
    (["C:", "Users", "user", "Documents", "d.tmp"], "no longer eligible") ∈
        (clean ⟨[.TEMP_FILES], [], [], none⟩
          ⟨[⟨["C:", "Users", "user", "Documents", "d.tmp"], 30, 0⟩], true, [], [], []⟩
          [⟨["C:", "Users", "user", "Documents", "d.tmp"], 30, .TEMP_FILES, true, none⟩]
          none).result.failed_files
      ∧ (⟨["C:", "Users", "user", "Documents", "d.tmp"], 30, 0⟩ : FSEntry) ∈
        (clean ⟨[.TEMP_FILES], [], [], none⟩
          ⟨[⟨["C:", "Users", "user", "Documents", "d.tmp"], 30, 0⟩], true, [], [], []⟩
          [⟨["C:", "Users", "user", "Documents", "d.tmp"], 30, .TEMP_FILES, true, none⟩]
          none).finalFs := by
  have h := clean_recheck_eligibility ⟨[.TEMP_FILES], [], [], none⟩
    ⟨[⟨["C:", "Users", "user", "Documents", "d.tmp"], 30, 0⟩], true, [], [], []⟩
    [⟨["C:", "Users", "user", "Documents", "d.tmp"], 30, .TEMP_FILES, true, none⟩]
    ⟨["C:", "Users", "user", "Documents", "d.tmp"], 30, .TEMP_FILES, true, none⟩
    (by decide) (by decide) (by decide)
  exact ⟨h.1, h.2 ⟨["C:", "Users", "user", "Documents", "d.tmp"], 30, 0⟩
    (by decide) (by decide)⟩

/-- C7: a file held open by another process at clean time is never
removed: its step leaves the disk state and the success/freed statistics
untouched and only appends `(path, "in use")` to the failures; in the
whole run the file is recorded in `failed_files` with reason "in use"
and its on-disk entry survives. -/
theorem clean_busy_file_skip :
    ∀ (cfg : ScanConfig) (env : Env) (files : List JunkFile) (f : JunkFile),
      f ∈ files →
      f.path ∈ env.inUse →
      isEligibleForDeletion cfg f.path f.category = true →
      (files.map (fun g => g.path)).Nodup →
      (f.path, "in use") ∈ (clean cfg env files none).result.failed_files
        ∧ (∀ e ∈ env.fs, e.path = f.path → e ∈ (clean cfg env files none).finalFs)
        ∧ ∀ acc : CleanAcc, cleanStep cfg env acc f
            = { acc with failed_files := acc.failed_files ++ [(f.path, "in use")] } := by
  intro cfg env files f hmem hinuse helig hnd
  have hout : ∀ fs', cleanFileOutcome cfg env fs' f = .failed "in use" := by
    intro fs'
    simp [cleanFileOutcome, helig, hinuse]
  refine ⟨?_, ?_, ?_⟩
  · simp only [clean, Option.getD_none, min_self, List.take_length]
    exact clean_fold_failed_mem cfg env hout files _ hmem
  · intro e he hep
    simp only [clean, Option.getD_none, min_self, List.take_length]
    refine clean_fold_preserves cfg env files _ e he ?_
    intro g hg hgp fs' sz hc
    have hgf : g = f :=
      List.inj_on_of_nodup_map hnd hg hmem (hgp.trans hep)
    rw [hgf, hout fs'] at hc
    exact DeleteOutcome.noConfusion hc
  · intro acc
    simp [cleanStep, hout acc.fs]

/-- Witness for C7: a locked temp file is skipped with reason "in use",
stays on disk, and its step only records the failure, in a concrete
clean run. -/
theorem clean_busy_file_skip_witness :
    (["C:", "Windows", "Temp", "l.tmp"], "in use") ∈
        (clean ⟨[.TEMP_FILES], [], [], none⟩
          ⟨[⟨["C:", "Windows", "Temp", "l.tmp"], 10, 0⟩], true, [],
            [["C:", "Windows", "Temp", "l.tmp"]], []⟩
          [⟨["C:", "Windows", "Temp", "l.tmp"], 10, .TEMP_FILES, true, none⟩]
          none).result.failed_files
      ∧ (⟨["C:", "Windows", "Temp", "l.tmp"], 10, 0⟩ : FSEntry) ∈
        (clean ⟨[.TEMP_FILES], [], [], none⟩
          ⟨[⟨["C:", "Windows", "Temp", "l.tmp"], 10, 0⟩], true, [],
            [["C:", "Windows", "Temp", "l.tmp"]], []⟩
          [⟨["C:", "Windows", "Temp", "l.tmp"], 10, .TEMP_FILES, true, none⟩]
          none).finalFs := by
  have h := clean_busy_file_skip ⟨[.TEMP_FILES], [], [], none⟩
    ⟨[⟨["C:", "Windows", "Temp", "l.tmp"], 10, 0⟩], true, [],
      [["C:", "Windows", "Temp", "l.tmp"]], []⟩
    [⟨["C:", "Windows", "Temp", "l.tmp"], 10, .TEMP_FILES, true, none⟩]
    ⟨["C:", "Windows", "Temp", "l.tmp"], 10, .TEMP_FILES, true, none⟩
    (by decide) (by decide) (by decide) (by decide)
  exact ⟨h.1, h.2.1 ⟨["C:", "Windows", "Temp", "l.tmp"], 10, 0⟩
    (by decide) (by decide)⟩

/-! Helper lemmas about the progress trace. -/

theorem progressTrace_chain (n k : Nat) : (progressTrace n k).Chain' (· ≤ ·) := by
  refine List.Pairwise.chain' ?_
  rw [progressTrace, List.pairwise_map]
  refine (List.pairwise_lt_range _).imp ?_
  intro i j hij
  exact Nat.div_le_div_right (Nat.mul_le_mul_right _ (by omega))

theorem progressTrace_le (n k : Nat) : ∀ q ∈ progressTrace n k, q ≤ 100 := by
  intro q hq
  simp only [progressTrace, List.mem_map, List.mem_range] at hq
  obtain ⟨i, hi, rfl⟩ := hq
  have hin : i < n := lt_of_lt_of_le hi (min_le_right _ _)
  have hn : 0 < n := by omega
  calc (i + 1) * 100 / n ≤ n * 100 / n :=
        Nat.div_le_div_right (Nat.mul_le_mul_right _ (by omega))
    _ = 100 := Nat.mul_div_cancel_left 100 hn

theorem progressTrace_cancel_lt {n k : Nat} (h : k < n) :
    100 ∉ progressTrace n k := by
  intro hmem
  simp only [progressTrace, List.mem_map, List.mem_range] at hmem
  obtain ⟨i, hi, heq⟩ := hmem
  have hn : 0 < n := by omega
  have hin : i + 1 < n := by omega
  have hlt : (i + 1) * 100 / n < 100 := by
    rw [Nat.div_lt_iff_lt_mul hn]
    have := (Nat.mul_lt_mul_right (show 0 < 100 by omega)).mpr hin
    omega
  omega

theorem progressTrace_complete {n : Nat} (h : 0 < n) :
    100 ∈ progressTrace n n := by
  simp only [progressTrace, List.mem_map, List.mem_range, min_self]
  refine ⟨n - 1, by omega, ?_⟩
  rw [show n - 1 + 1 = n by omega]
  exact Nat.mul_div_cancel_left 100 h

theorem scan_progress_eq (env : Env) (cfg : ScanConfig) (cancelAt : Option Nat) :
    (scan env cfg cancelAt).progress
      = progressTrace (enabledList cfg).length
          (min (cancelAt.getD (enabledList cfg).length) (enabledList cfg).length) :=
  rfl

theorem scan_cancelled_eq (env : Env) (cfg : ScanConfig) (cancelAt : Option Nat) :
    (scan env cfg cancelAt).cancelled
      = decide (min (cancelAt.getD (enabledList cfg).length)
            (enabledList cfg).length < (enabledList cfg).length) :=
  rfl

theorem clean_progress_eq (cfg : ScanConfig) (env : Env) (files : List JunkFile)
    (cancelAt : Option Nat) :
    (clean cfg env files cancelAt).progress
      = progressTrace files.length
          (min (cancelAt.getD files.length) files.length) :=
  rfl

theorem clean_cancelled_eq (cfg : ScanConfig) (env : Env) (files : List JunkFile)
    (cancelAt : Option Nat) :
    (clean cfg env files cancelAt).cancelled
      = decide (min (cancelAt.getD files.length) files.length < files.length) :=
  rfl

/-- C9: for every scan and every clean, the reported percentages are
non-decreasing and lie in [0,100]; a cancelled run never reports 100,
and a naturally completed run over at least one work unit does. -/
theorem progress_contract :
    ∀ (env : Env) (cfg : ScanConfig) (files : List JunkFile)
      (cancelAt : Option Nat),
      ((scan env cfg cancelAt).progress.Chain' (· ≤ ·)
        ∧ (∀ q ∈ (scan env cfg cancelAt).progress, q ≤ 100)
        ∧ ((scan env cfg cancelAt).cancelled = true →
            100 ∉ (scan env cfg cancelAt).progress)
        ∧ ((scan env cfg cancelAt).cancelled = false →
            0 < (enabledList cfg).length →
            100 ∈ (scan env cfg cancelAt).progress))
      ∧ ((clean cfg env files cancelAt).progress.Chain' (· ≤ ·)
        ∧ (∀ q ∈ (clean cfg env files cancelAt).progress, q ≤ 100)
        ∧ ((clean cfg env files cancelAt).cancelled = true →
            100 ∉ (clean cfg env files cancelAt).progress)
        ∧ ((clean cfg env files cancelAt).cancelled = false →
            0 < files.length →
            100 ∈ (clean cfg env files cancelAt).progress)) := by
  intro env cfg files cancelAt
  constructor
  · rw [scan_progress_eq, scan_cancelled_eq]
    refine ⟨progressTrace_chain _ _, progressTrace_le _ _, ?_, ?_⟩
    · intro hc
      exact progressTrace_cancel_lt (of_decide_eq_true hc)
    · intro hc hn
      have hk := of_decide_eq_false hc
      have : min (cancelAt.getD (enabledList cfg).length)
          (enabledList cfg).length = (enabledList cfg).length := by omega
      rw [this]
      exact progressTrace_complete hn
  · rw [clean_progress_eq, clean_cancelled_eq]
    refine ⟨progressTrace_chain _ _, progressTrace_le _ _, ?_, ?_⟩
    · intro hc
      exact progressTrace_cancel_lt (of_decide_eq_true hc)
    · intro hc hn
      have hk := of_decide_eq_false hc
      have : min (cancelAt.getD files.length) files.length = files.length := by
        omega
      rw [this]
      exact progressTrace_complete hn

/-- Witness for C9: a completed one-category scan reports 100, a clean
of two files cancelled after the first never reports 100. -/
theorem progress_contract_witness :
    100 ∈ (scan ⟨[], true, [], [], []⟩ ⟨[.TEMP_FILES], [], [], none⟩ none).progress
    ∧ 100 ∉ (clean ⟨[.TEMP_FILES], [], [], none⟩ ⟨[], true, [], [], []⟩
        [⟨["C:", "Windows", "Temp", "a.tmp"], 10, .TEMP_FILES, true, none⟩,
         ⟨["C:", "Windows", "Temp", "b.tmp"], 20, .TEMP_FILES, true, none⟩]
        (some 1)).progress :=
  ⟨(progress_contract ⟨[], true, [], [], []⟩ ⟨[.TEMP_FILES], [], [], none⟩
      [] none).1.2.2.2 (by decide) (by decide),
   (progress_contract ⟨[], true, [], [], []⟩ ⟨[.TEMP_FILES], [], [], none⟩
      [⟨["C:", "Windows", "Temp", "a.tmp"], 10, .TEMP_FILES, true, none⟩,
       ⟨["C:", "Windows", "Temp", "b.tmp"], 20, .TEMP_FILES, true, none⟩]
      (some 1)).2.2.2.1 (by decide)⟩


/-! Helper lemmas for the configuration round trip. -/

theorem catFromName_catName (c : JunkCategory) : catFromName (catName c) = some c := by
  cases c <;> rfl

theorem decodeList_map {α : Type} (f : α → JVal) (g : JVal → Option α)
    (h : ∀ a, g (f a) = some a) :
    ∀ l : List α, decodeList g (l.map f) = some l := by
  intro l
  induction l with
  | nil => rfl
  | cons a t ih => simp [decodeList, h, ih]

theorem decodeStr_jstr (s : String) : decodeStr (JVal.jstr s) = some s := rfl

theorem decodeCat_encoded (c : JunkCategory) :
    decodeCat (JVal.jstr (catName c)) = some c :=
  catFromName_catName c

theorem decodePath_encodePath (p : FsPath) : decodePath (encodePath p) = some p :=
  decodeList_map JVal.jstr decodeStr decodeStr_jstr p

theorem decodeScanConfig_encode (sc : ScanConfig) :
    decodeScanConfig (encodeScanConfig sc) = some sc := by
  obtain ⟨ec, ep, cp, ma⟩ := sc
  cases ma <;>
    simp [decodeScanConfig, encodeScanConfig, getField,
      decodeList_map (fun c => JVal.jstr (catName c)) decodeCat decodeCat_encoded,
      decodeList_map encodePath decodePath decodePath_encodePath,
      decodeList_map JVal.jstr decodeStr decodeStr_jstr]

/-- C8: the configuration store round trip: loading a saved AppConfig
yields a value field-wise equal to the original, including the nested
ScanConfig's enabled categories, excluded paths, custom patterns and
optional age limit. -/
theorem config_round_trip :
    ∀ x : AppConfig, loadConfig (some (saveConfig x)) = x := by
  intro x
  obtain ⟨sc, ut, lang, au⟩ := x
  simp [loadConfig, saveConfig, decodeAppConfig, encodeAppConfig, getField,
    decodeScanConfig_encode, decodeStr]

/-- C10: at startup without elevated privilege, `main` calls
`request_admin`; the current process exits (with code 0) exactly when
`ShellExecuteW` reports a successful elevated relaunch (return value
greater than 32); on denial or failure (return value at most 32) and on
any exception, `request_admin` returns `False` without raising and the
application continues running with normal privileges. -/
theorem startup_privilege_fallback :
    ∀ (ret : Int) (e : String),
      (mainStartup false (Except.ok ret)
          = StartupOutcome.exitedForElevatedRelaunch 0 ↔ ret > 32)
      ∧ (ret ≤ 32 →
          request_admin (Except.ok ret) = LaunchResult.returned false
            ∧ mainStartup false (Except.ok ret) = StartupOutcome.runsApp false)
      ∧ request_admin (Except.error e) = LaunchResult.returned false
      ∧ mainStartup false (Except.error e) = StartupOutcome.runsApp false := by
  intro ret e
  refine ⟨⟨?_, ?_⟩, ?_, rfl, rfl⟩
  · intro h
    by_contra hle
    have : request_admin (Except.ok ret) = LaunchResult.returned false := by
      simp [request_admin, hle]
    simp [mainStartup, this] at h
  · intro h
    have : request_admin (Except.ok ret) = LaunchResult.exited 0 := by
      simp [request_admin, h]
    simp [mainStartup, this]
  · intro h
    have hr : request_admin (Except.ok ret) = LaunchResult.returned false := by
      simp [request_admin]
      omega
    exact ⟨hr, by simp [mainStartup, hr]⟩

/-- Witness for C10: a successful relaunch (return 42) exits with code
0; a refused UAC prompt (return 5) and a raised exception both leave the
application running unelevated. -/
theorem startup_privilege_fallback_witness :
    mainStartup false (Except.ok 42) = StartupOutcome.exitedForElevatedRelaunch 0
    ∧ mainStartup false (Except.ok 5) = StartupOutcome.runsApp false
    ∧ request_admin (Except.error "ShellExecuteW failed")
        = LaunchResult.returned false :=
  ⟨(startup_privilege_fallback 42 "x").1.mpr (by decide),
   ((startup_privilege_fallback 5 "x").2.1 (by decide)).2,
   (startup_privilege_fallback 0 "ShellExecuteW failed").2.2.1⟩

end WinCleaner
